import Mathlib

/-!
Verification of the message/stream-buffer primitive of this repository and of
its LED color-cycling task.

The repository vendors `Free_RTOS_Kernel/include/message_buffer.h`, whose API
macros delegate to the stream-buffer implementation (`xStreamBufferSend`,
`xStreamBufferReceive`, ...).  That implementation file is not part of the
sources here, so the buffer (its RingStore, StreamBufferCore, MessageFramer
and reset/creation behaviour) is modelled from the specification document
(sections 3, 4, 6, 7), as noted on each definition.  The two
`xMessageBuffer...SpaceAvailable` macros and the `led_rgb_task` loop, by
contrast, are embedded directly from the repository sources
(`message_buffer.h` lines 846-849 and `src/led_rgb.c`).
-/

/-- Modelled from the spec: `mode: {Stream, Message} - fixed at creation, never
changes` (section 3). -/
inductive Mode
  | Stream
  | Message
deriving DecidableEq, Repr

/-- Modelled from the spec (section 3, Data model): one buffer instance per
channel, with fixed-capacity byte `storage`, logical `head`/`tail` cursors,
a `bytesUsed` counter, a reader-wake `triggerLevelBytes`, the creation-time
`mode`, and one waiter slot per role (here each slot is a flag recording
whether a blocked party is registered). -/
structure Buffer where
  capacity : Nat
  storage : List Nat
  head : Nat
  tail : Nat
  bytesUsed : Nat
  triggerLevelBytes : Nat
  mode : Mode
  writerWaiter : Bool
  readerWaiter : Bool
deriving DecidableEq, Repr

/-- Modelled from the spec: wraparound read of `n` bytes of `s` starting at
logical cursor `start` (`Wraparound: ring-buffer index arithmetic where
writes/reads past the end of storage continue from the beginning`). -/
def readWrap (s : List Nat) (start n : Nat) : List Nat :=
  (List.range n).map (fun j => s.getD ((start + j) % s.length) 0)

/-- Modelled from the spec: wraparound write of the bytes `d` into `s`
starting at logical cursor `start`. -/
def writeWrap (s : List Nat) (start : Nat) : List Nat → List Nat
  | [] => s
  | x :: xs => writeWrap (s.set (start % s.length) x) (start + 1) xs

/-- The sequence of valid bytes currently held, oldest first: `bytesUsed`
bytes starting at `tail`. -/
def contents (b : Buffer) : List Nat :=
  readWrap b.storage b.tail b.bytesUsed

/-- Modelled from the spec (section 3, Invariants): the storage size is the
capacity fixed at creation, `0 ≤ bytesUsed ≤ C`, and
`head = (tail + bytesUsed) mod storageSize`. -/
def BufInv (b : Buffer) : Prop :=
  b.storage.length = b.capacity ∧
  b.bytesUsed ≤ b.capacity ∧
  b.head % b.capacity = (b.tail + b.bytesUsed) % b.capacity

instance (b : Buffer) : Decidable (BufInv b) := by
  unfold BufInv; infer_instance

namespace RingStore

/-- Modelled from the spec (section 4.1): `freeSpace() = capacity - bytesUsed`. -/
def freeSpace (b : Buffer) : Nat := b.capacity - b.bytesUsed

/-- Modelled from the spec (section 4.1): `used() = bytesUsed`. -/
def used (b : Buffer) : Nat := b.bytesUsed

/-- Modelled from the spec (section 4.1): `write(data, len) -> bytesWritten`
copies `min(len, capacity - bytesUsed)` bytes starting at `head`, wrapping at
`storageSize`; advances `head` and `bytesUsed`; partial writes are allowed and
signaled via the return value. -/
def write (b : Buffer) (data : List Nat) : Buffer × Nat :=
  let n := min data.length (freeSpace b)
  ({ b with
      storage := writeWrap b.storage b.head (data.take n)
      head := (b.head + n) % b.capacity
      bytesUsed := b.bytesUsed + n }, n)

/-- Modelled from the spec (section 4.1): `read(out, maxLen) -> bytesRead`
copies `min(maxLen, bytesUsed)` bytes starting at `tail`, wrapping; advances
`tail` and `bytesUsed`; partial reads allowed. -/
def read (b : Buffer) (maxLen : Nat) : Buffer × List Nat :=
  let n := min maxLen b.bytesUsed
  ({ b with
      tail := (b.tail + n) % b.capacity
      bytesUsed := b.bytesUsed - n }, readWrap b.storage b.tail n)

end RingStore

theorem readWrap_length (s : List Nat) (start n : Nat) :
    (readWrap s start n).length = n := by
  simp [readWrap]

theorem writeWrap_length (d : List Nat) (s : List Nat) (start : Nat) :
    (writeWrap s start d).length = s.length := by
  induction d generalizing s start with
  | nil => rfl
  | cons x xs ih => simp [writeWrap, ih]

theorem readWrap_mod (s : List Nat) (start n : Nat) :
    readWrap s (start % s.length) n = readWrap s start n := by
  simp [readWrap, Nat.mod_add_mod]

theorem readWrap_append (s : List Nat) (start m n : Nat) :
    readWrap s start (m + n) = readWrap s start m ++ readWrap s (start + m) n := by
  simp only [readWrap, List.range_add, List.map_append, List.map_map]
  congr 1
  apply List.map_congr_left
  intro j _
  simp [Function.comp]
  ring_nf

theorem readWrap_take (s : List Nat) (start : Nat) {k n : Nat} (h : k ≤ n) :
    (readWrap s start n).take k = readWrap s start k := by
  have : n = k + (n - k) := by omega
  rw [this, readWrap_append]
  exact List.take_left' (readWrap_length s start k)

theorem readWrap_drop (s : List Nat) (start : Nat) {k n : Nat} (h : k ≤ n) :
    (readWrap s start n).drop k = readWrap s (start + k) (n - k) := by
  have : n = k + (n - k) := by omega
  rw [this, readWrap_append]
  rw [List.drop_left' (readWrap_length s start k)]
  congr 1
  omega

theorem readWrap_set_last (s : List Nat) (x tail used : Nat) (hused : used < s.length) :
    readWrap (s.set ((tail + used) % s.length) x) tail (used + 1)
      = readWrap s tail used ++ [x] := by
  have hlen : 0 < s.length := by omega
  have hslen : (s.set ((tail + used) % s.length) x).length = s.length := by
    simp
  rw [readWrap_append]
  congr 1
  · unfold readWrap
    rw [hslen]
    apply List.map_congr_left
    intro j hj
    rw [List.mem_range] at hj
    have hne : (tail + used) % s.length ≠ (tail + j) % s.length := by
      intro heq
      have hdvd : s.length ∣ (tail + used) - (tail + j) :=
        (Nat.modEq_iff_dvd' (by omega)).mp heq.symm
      have := Nat.le_of_dvd (by omega) hdvd
      omega
    rw [List.getD_eq_getElem?_getD, List.getD_eq_getElem?_getD,
        List.getElem?_set_ne hne]
  · have hr1 : List.range 1 = [0] := rfl
    unfold readWrap
    rw [hr1]
    simp only [List.map_cons, List.map_nil, hslen, Nat.add_zero]
    rw [List.getD_eq_getElem?_getD,
        List.getElem?_set_eq_of_lt x (Nat.mod_lt _ hlen)]
    rfl

theorem readWrap_writeWrap (d : List Nat) :
    ∀ (s : List Nat) (start tail used : Nat),
      used + d.length ≤ s.length →
      start % s.length = (tail + used) % s.length →
      readWrap (writeWrap s start d) tail (used + d.length)
        = readWrap s tail used ++ d := by
  induction d with
  | nil =>
    intro s start tail used _ _
    simp [writeWrap]
  | cons x xs ih =>
    intro s start tail used hle hstart
    have hused : used < s.length := by
      simp only [List.length_cons] at hle
      omega
    rw [writeWrap, hstart]
    have hs2len : (s.set ((tail + used) % s.length) x).length = s.length := by
      simp
    have h1 : used + (x :: xs).length = (used + 1) + xs.length := by
      simp only [List.length_cons]
      omega
    rw [h1]
    rw [ih (s.set ((tail + used) % s.length) x) (start + 1) tail (used + 1)
        (by rw [hs2len]; simp only [List.length_cons] at hle; omega)
        (by
          rw [hs2len]
          have h2 := congrArg (fun z => (z + 1) % s.length) hstart
          simpa [Nat.mod_add_mod, Nat.add_assoc] using h2)]
    rw [readWrap_set_last s x tail used hused]
    simp

theorem RingStore.write_spec (b : Buffer) (data : List Nat) (hInv : BufInv b) :
    (RingStore.write b data).2 = min data.length (RingStore.freeSpace b) ∧
    BufInv (RingStore.write b data).1 ∧
    contents (RingStore.write b data).1
      = contents b ++ data.take (min data.length (RingStore.freeSpace b)) ∧
    (RingStore.write b data).1.capacity = b.capacity ∧
    (RingStore.write b data).1.mode = b.mode ∧
    (RingStore.write b data).1.triggerLevelBytes = b.triggerLevelBytes ∧
    (RingStore.write b data).1.bytesUsed
      = b.bytesUsed + min data.length (RingStore.freeSpace b) := by
  obtain ⟨hlen, hle, hhead⟩ := hInv
  have hn : min data.length (RingStore.freeSpace b) ≤ data.length := Nat.min_le_left _ _
  have hn2 : b.bytesUsed + min data.length (RingStore.freeSpace b) ≤ b.capacity := by
    unfold RingStore.freeSpace
    omega
  have htake : (data.take (min data.length (RingStore.freeSpace b))).length
      = min data.length (RingStore.freeSpace b) := by
    rw [List.length_take]
    omega
  refine ⟨rfl, ⟨?_, ?_, ?_⟩, ?_, rfl, rfl, rfl, rfl⟩
  · simp [RingStore.write, writeWrap_length, hlen]
  · exact hn2
  · show ((b.head + min data.length (RingStore.freeSpace b)) % b.capacity) % b.capacity
        = (b.tail + (b.bytesUsed + min data.length (RingStore.freeSpace b))) % b.capacity
    rw [Nat.mod_mod_of_dvd _ dvd_rfl]
    have h2 : b.head + min data.length (RingStore.freeSpace b)
        ≡ b.tail + b.bytesUsed + min data.length (RingStore.freeSpace b) [MOD b.capacity] :=
      Nat.ModEq.add_right _ hhead
    simpa [Nat.add_assoc] using h2
  · show readWrap (writeWrap b.storage b.head (data.take _)) b.tail
        (b.bytesUsed + min data.length (RingStore.freeSpace b))
      = contents b ++ data.take (min data.length (RingStore.freeSpace b))
    rw [show b.bytesUsed + min data.length (RingStore.freeSpace b)
        = b.bytesUsed + (data.take (min data.length (RingStore.freeSpace b))).length
      from by rw [htake]]
    exact readWrap_writeWrap (data.take _) b.storage b.head b.tail b.bytesUsed
      (by rw [htake, hlen]; exact hn2)
      (by rw [hlen]; exact hhead)

theorem RingStore.read_spec (b : Buffer) (maxLen : Nat) (hInv : BufInv b) :
    (RingStore.read b maxLen).2 = (contents b).take (min maxLen b.bytesUsed) ∧
    BufInv (RingStore.read b maxLen).1 ∧
    contents (RingStore.read b maxLen).1 = (contents b).drop (min maxLen b.bytesUsed) ∧
    (RingStore.read b maxLen).1.capacity = b.capacity ∧
    (RingStore.read b maxLen).1.mode = b.mode ∧
    (RingStore.read b maxLen).1.triggerLevelBytes = b.triggerLevelBytes ∧
    (RingStore.read b maxLen).1.storage = b.storage ∧
    (RingStore.read b maxLen).1.bytesUsed = b.bytesUsed - min maxLen b.bytesUsed := by
  obtain ⟨hlen, hle, hhead⟩ := hInv
  have hk : min maxLen b.bytesUsed ≤ b.bytesUsed := Nat.min_le_right _ _
  refine ⟨?_, ⟨hlen, by simp [RingStore.read]; omega, ?_⟩, ?_, rfl, rfl, rfl, rfl, rfl⟩
  · show readWrap b.storage b.tail (min maxLen b.bytesUsed)
        = (contents b).take (min maxLen b.bytesUsed)
    rw [contents, readWrap_take b.storage b.tail hk]
  · show b.head % b.capacity
        = ((b.tail + min maxLen b.bytesUsed) % b.capacity
            + (b.bytesUsed - min maxLen b.bytesUsed)) % b.capacity
    rw [Nat.mod_add_mod]
    rw [show b.tail + min maxLen b.bytesUsed + (b.bytesUsed - min maxLen b.bytesUsed)
        = b.tail + b.bytesUsed from by omega]
    exact hhead
  · show readWrap b.storage ((b.tail + min maxLen b.bytesUsed) % b.capacity)
        (b.bytesUsed - min maxLen b.bytesUsed)
      = (contents b).drop (min maxLen b.bytesUsed)
    rw [contents, readWrap_drop b.storage b.tail hk, ← hlen,
        readWrap_mod b.storage (b.tail + min maxLen b.bytesUsed)]

/-- Modelled from the spec: the fixed-width length header of a Message-mode
record; `sizeof( size_t )` is 4 bytes on the 32-bit target of this repository
(`message_buffer.h` documents `an additional sizeof( size_t ) bytes ... 4
bytes on a 32-bit architecture`). -/
def headerSize : Nat := 4

/-- Modelled from the spec: the fixed-width length header as 4 little-endian
bytes. -/
def encodeHeader (len : Nat) : List Nat :=
  [len % 256, len / 256 % 256, len / 256 ^ 2 % 256, len / 256 ^ 3 % 256]

/-- Modelled from the spec: decoding of the 4-byte length header. -/
def decodeHeader (bytes : List Nat) : Nat :=
  match bytes with
  | [b0, b1, b2, b3] => b0 + 256 * (b1 + 256 * (b2 + 256 * b3))
  | _ => 0

/-- Modelled from the spec: `triggerLevelBytes: minimum bytes that must be
present before a blocked reader is woken; default 1` (section 3). -/
def defaultTriggerLevelBytes : Nat := 1

/-- Modelled from the spec (section 8): the minimum encodable unit for the
buffer's mode: 1 byte in Stream mode; in Message mode the smallest possible
record, which section 4.3 gives as header + 0-byte payload (section 8 instead
says header + 1; the component-design section is followed here). -/
def minEncodableUnit (m : Mode) : Nat :=
  match m with
  | Mode.Stream => 1
  | Mode.Message => headerSize

namespace StreamBufferCore

/-- Modelled from the spec (section 4.2): `spaceAvailable()`, a pure
non-blocking query on RingStore state. -/
def spaceAvailable (b : Buffer) : Nat := RingStore.freeSpace b

/-- Modelled from the spec (section 4.2): `bytesAvailable()`. -/
def bytesAvailable (b : Buffer) : Nat := RingStore.used b

/-- Modelled from the spec (section 4.2): `isEmpty()`. -/
def isEmpty (b : Buffer) : Bool := b.bytesUsed == 0

/-- Modelled from the spec (sections 4.2, 4.3, 8): `isFull()` holds exactly
when `spaceAvailable()` is below the minimum encodable unit for the buffer's
mode. -/
def isFull (b : Buffer) : Bool := decide (spaceAvailable b < minEncodableUnit b.mode)

/-- Modelled from the spec (section 4.2): `send(data, len, timeout)` writes up
to `len` bytes (partial allowed) and returns the bytes written.  The model is
single-context: the peer does not act during the call, so a wait for space can
only time out, and the call commits exactly the bytes for which space exists
(0 if still no space after timeout). -/
def send (b : Buffer) (data : List Nat) (_timeout : Nat) : Buffer × Nat :=
  RingStore.write b data

/-- Modelled from the spec (section 4.2): `receive(buf, maxLen, timeout)`,
symmetric to `send`: reads up to `maxLen` bytes (partial allowed).  Returns
the bytes read; single-context semantics as for `send`. -/
def receive (b : Buffer) (maxLen : Nat) (_timeout : Nat) : Buffer × List Nat :=
  RingStore.read b maxLen

/-- Modelled from the spec (section 4.2): `reset()` fails if either waiter
slot is non-empty; otherwise clears RingStore (zeroes `head`, `tail`,
`bytesUsed`) and reverts the trigger level to default. -/
def reset (b : Buffer) : Buffer × Bool :=
  if b.writerWaiter || b.readerWaiter then (b, false)
  else ({ b with
            head := 0
            tail := 0
            bytesUsed := 0
            triggerLevelBytes := defaultTriggerLevelBytes }, true)

/-- Modelled from the spec (section 4.2): the reader-wake gate - a blocked
reader is woken once `bytesUsed >= triggerLevelBytes`. -/
def readerWakeGate (b : Buffer) : Bool := decide (b.triggerLevelBytes ≤ b.bytesUsed)

end StreamBufferCore

namespace MessageFramer

/-- Modelled from the spec (section 4.3): `send(msg, len, timeout)`.  A record
is the fixed-width length header followed by the payload.  If
`len + headerSize > capacity` the call fails immediately with 0 regardless of
`timeout`.  Otherwise, if the whole record fits in the free space it is
written as one unit and `len` is returned; otherwise the single-context wait
times out and 0 is returned. -/
def send (b : Buffer) (msg : List Nat) (_timeout : Nat) : Buffer × Nat :=
  if msg.length + headerSize > b.capacity then (b, 0)
  else if msg.length + headerSize ≤ StreamBufferCore.spaceAvailable b then
    ((RingStore.write b (encodeHeader msg.length ++ msg)).1, msg.length)
  else (b, 0)

/-- Modelled from the spec (section 4.3): `nextMessageLengthBytes()`,
a non-blocking, non-consuming peek of the next record's length, or 0 if
empty. -/
def nextMessageLengthBytes (b : Buffer) : Nat :=
  if b.bytesUsed = 0 then 0
  else decodeHeader (readWrap b.storage b.tail headerSize)

/-- Modelled from the spec (section 4.3): `receive(buf, maxLen, timeout)`
peeks the header without consuming; if `maxLen` is smaller than the encoded
message length it returns 0 immediately without consuming the record;
otherwise it consumes header plus payload and returns the payload length
together with the payload bytes.  On an empty buffer the single-context wait
times out and 0 is returned. -/
def receive (b : Buffer) (maxLen : Nat) (_timeout : Nat) : Buffer × Nat × List Nat :=
  if b.bytesUsed = 0 then (b, 0, [])
  else
    let L := decodeHeader (readWrap b.storage b.tail headerSize)
    if maxLen < L then (b, 0, [])
    else
      let r1 := RingStore.read b headerSize
      let r2 := RingStore.read r1.1 L
      (r2.1, L, r2.2)

end MessageFramer

/-- Modelled from the spec (sections 3 and 6): the buffer state produced by a
successful creation - storage allocated or supplied, indices zeroed, mode and
trigger level fixed. -/
def freshBuffer (capacityBytes : Nat) (mode : Mode) (triggerLevelBytes : Nat) : Buffer :=
  { capacity := capacityBytes
    storage := List.replicate capacityBytes 0
    head := 0
    tail := 0
    bytesUsed := 0
    triggerLevelBytes := triggerLevelBytes
    mode := mode
    writerWaiter := false
    readerWaiter := false }

/-- Modelled from the spec (section 6): dynamic creation allocates storage
from a heap and fails (returns no handle) if allocation fails; `allocOk`
stands for the external heap's answer. -/
def create (allocOk : Bool) (capacityBytes : Nat) (mode : Mode)
    (triggerLevelBytes : Nat) : Option Buffer :=
  if allocOk then some (freshBuffer capacityBytes mode triggerLevelBytes) else none

/-- Modelled from the spec (section 6): creation with the default trigger
level (`triggerLevelBytes=1` in the `create` signature of section 6). -/
def createDefault (allocOk : Bool) (capacityBytes : Nat) (mode : Mode) : Option Buffer :=
  create allocOk capacityBytes mode defaultTriggerLevelBytes

/-- Modelled from the spec (sections 6 and 7): static creation uses
caller-owned memory and fails (returns no handle) if the supplied storage is
absent or too small, or the caller-supplied buffer structure is absent.
`suppliedStorageBytes` is the size of the caller's storage area if one was
supplied. -/
def createStatic (suppliedStorageBytes : Option Nat) (structSupplied : Bool)
    (capacityBytes : Nat) (mode : Mode) (triggerLevelBytes : Nat) : Option Buffer :=
  match suppliedStorageBytes with
  | none => none
  | some storageSize =>
    if !structSupplied then none
    else if storageSize < capacityBytes then none
    else some (freshBuffer capacityBytes mode triggerLevelBytes)

/-- The stream-buffer query that both space macros of `message_buffer.h`
expand to.  Its body is modelled from the spec (section 4.2,
`spaceAvailable()`); the claim about the two macros does not depend on it. -/
def xStreamBufferSpacesAvailable (b : Buffer) : Nat :=
  StreamBufferCore.spaceAvailable b

/-- Embedded from the source (`message_buffer.h` lines 846-847):
`#define xMessageBufferSpaceAvailable( xMessageBuffer )
xStreamBufferSpacesAvailable( xMessageBuffer )`. -/
def xMessageBufferSpaceAvailable (b : Buffer) : Nat :=
  xStreamBufferSpacesAvailable b

/-- Embedded from the source (`message_buffer.h` lines 848-849):
`#define xMessageBufferSpacesAvailable( xMessageBuffer )
xStreamBufferSpacesAvailable( xMessageBuffer )` (the typo-correcting alias). -/
def xMessageBufferSpacesAvailable (b : Buffer) : Nat :=
  xStreamBufferSpacesAvailable b

theorem decodeHeader_encodeHeader (L : Nat) (h : L < 2 ^ 32) :
    decodeHeader (encodeHeader L) = L := by
  simp only [encodeHeader, decodeHeader]
  omega

theorem encodeHeader_length (L : Nat) : (encodeHeader L).length = headerSize := rfl

/-- Modelled from the spec (section 3, Invariants): in Message mode every byte
range between record boundaries is exactly one complete
`[lengthHeader, payload]` record; `encodeRecord` is the byte form of one such
record. -/
def encodeRecord (m : List Nat) : List Nat := encodeHeader m.length ++ m

/-- Byte form of a whole queue of messages, oldest first. -/
def encodeList : List (List Nat) → List Nat
  | [] => []
  | m :: q => encodeRecord m ++ encodeList q

/-- Parse a byte sequence back into its queue of message payloads, repeatedly
splitting off a `[lengthHeader, payload]` record. -/
def decodeRecords (bytes : List Nat) : List (List Nat) :=
  if h : bytes = [] then []
  else
    ((bytes.drop headerSize).take (decodeHeader (bytes.take headerSize)))
      :: decodeRecords ((bytes.drop headerSize).drop (decodeHeader (bytes.take headerSize)))
termination_by bytes.length
decreasing_by
  have hpos : 0 < bytes.length := List.length_pos.mpr h
  simp only [List.length_drop, headerSize]
  omega

theorem encodeList_cons_length (m : List Nat) (q : List (List Nat)) :
    (encodeList (m :: q)).length = headerSize + m.length + (encodeList q).length := by
  simp [encodeList, encodeRecord, encodeHeader, headerSize]
  omega

theorem encodeList_cons_assoc (m : List Nat) (q : List (List Nat)) :
    encodeList (m :: q) = encodeHeader m.length ++ (m ++ encodeList q) := by
  rw [encodeList, encodeRecord, List.append_assoc]

theorem decodeRecords_encodeList (q : List (List Nat))
    (h : ∀ m ∈ q, m.length < 2 ^ 32) :
    decodeRecords (encodeList q) = q := by
  induction q with
  | nil =>
    rw [encodeList, decodeRecords]
    simp
  | cons m q ih =>
    have hm : m.length < 2 ^ 32 := h m (List.mem_cons_self m q)
    have hne : encodeList (m :: q) ≠ [] := by
      rw [encodeList_cons_assoc]
      simp [encodeHeader]
    rw [decodeRecords, dif_neg hne, encodeList_cons_assoc]
    rw [List.take_left' (encodeHeader_length m.length),
        List.drop_left' (encodeHeader_length m.length),
        decodeHeader_encodeHeader m.length hm,
        List.take_left' rfl, List.drop_left' rfl]
    rw [ih (fun x hx => h x (List.mem_cons_of_mem m hx))]

theorem contents_length (b : Buffer) : (contents b).length = b.bytesUsed :=
  readWrap_length b.storage b.tail b.bytesUsed

theorem MessageFramer.send_oversized (b : Buffer) (msg : List Nat) (t : Nat)
    (h : msg.length + headerSize > b.capacity) :
    MessageFramer.send b msg t = (b, 0) := by
  rw [MessageFramer.send, if_pos h]

theorem MessageFramer.send_noSpace (b : Buffer) (msg : List Nat) (t : Nat)
    (h1 : ¬ msg.length + headerSize > b.capacity)
    (h2 : ¬ msg.length + headerSize ≤ StreamBufferCore.spaceAvailable b) :
    MessageFramer.send b msg t = (b, 0) := by
  rw [MessageFramer.send, if_neg h1, if_neg h2]

theorem MessageFramer.send_fail_of_no_space (b : Buffer) (msg : List Nat) (t : Nat)
    (h2 : ¬ msg.length + headerSize ≤ StreamBufferCore.spaceAvailable b) :
    MessageFramer.send b msg t = (b, 0) := by
  by_cases h1 : msg.length + headerSize > b.capacity
  · exact MessageFramer.send_oversized b msg t h1
  · exact MessageFramer.send_noSpace b msg t h1 h2

theorem MessageFramer.send_success (b : Buffer) (msg : List Nat) (t : Nat)
    (hInv : BufInv b)
    (h2 : msg.length + headerSize ≤ StreamBufferCore.spaceAvailable b) :
    (MessageFramer.send b msg t).2 = msg.length ∧
    BufInv (MessageFramer.send b msg t).1 ∧
    contents (MessageFramer.send b msg t).1 = contents b ++ encodeRecord msg ∧
    (MessageFramer.send b msg t).1.capacity = b.capacity ∧
    (MessageFramer.send b msg t).1.mode = b.mode ∧
    (MessageFramer.send b msg t).1.triggerLevelBytes = b.triggerLevelBytes ∧
    (MessageFramer.send b msg t).1.bytesUsed
      = b.bytesUsed + (headerSize + msg.length) := by
  have hfree : StreamBufferCore.spaceAvailable b ≤ b.capacity := by
    unfold StreamBufferCore.spaceAvailable RingStore.freeSpace
    omega
  have h1 : ¬ msg.length + headerSize > b.capacity := by omega
  have hrec : (encodeHeader msg.length ++ msg).length = headerSize + msg.length := by
    simp [encodeHeader, headerSize]
    omega
  have hmin : min (encodeHeader msg.length ++ msg).length (RingStore.freeSpace b)
      = (encodeHeader msg.length ++ msg).length := by
    unfold StreamBufferCore.spaceAvailable at h2
    omega
  obtain ⟨hret, hinv2, hcont, hcap, hmode, htrig, hused⟩ :=
    RingStore.write_spec b (encodeHeader msg.length ++ msg) hInv
  rw [MessageFramer.send, if_neg h1, if_pos h2]
  refine ⟨rfl, hinv2, ?_, hcap, hmode, htrig, ?_⟩
  · rw [hcont, hmin, List.take_length, encodeRecord]
  · rw [hused, hmin, hrec]

theorem MessageFramer.nextLen_of_queue (b : Buffer) (m : List Nat)
    (q : List (List Nat)) (hInv : BufInv b)
    (hq : contents b = encodeList (m :: q)) (hm : m.length < 2 ^ 32) :
    MessageFramer.nextMessageLengthBytes b = m.length := by
  have hlen : b.bytesUsed = (encodeList (m :: q)).length := by
    rw [← hq, contents_length]
  rw [encodeList_cons_length] at hlen
  have hne : ¬ b.bytesUsed = 0 := by
    rw [hlen]
    simp [headerSize]
  have hpeek : readWrap b.storage b.tail headerSize = encodeHeader m.length := by
    have h4 : headerSize ≤ b.bytesUsed := by omega
    have := readWrap_take b.storage b.tail h4
    rw [← contents, hq, encodeList_cons_assoc,
        List.take_left' (encodeHeader_length m.length)] at this
    exact this.symm
  rw [MessageFramer.nextMessageLengthBytes, if_neg hne, hpeek,
      decodeHeader_encodeHeader m.length hm]

theorem MessageFramer.receive_undersized (b : Buffer) (m : List Nat)
    (q : List (List Nat)) (maxLen t : Nat) (hInv : BufInv b)
    (hq : contents b = encodeList (m :: q)) (hm : m.length < 2 ^ 32)
    (hlt : maxLen < m.length) :
    MessageFramer.receive b maxLen t = (b, 0, []) := by
  have hnext := MessageFramer.nextLen_of_queue b m q hInv hq hm
  have hlenq : b.bytesUsed = (encodeList (m :: q)).length := by
    rw [← hq, contents_length]
  rw [encodeList_cons_length] at hlenq
  have hne : ¬ b.bytesUsed = 0 := by
    rw [hlenq]
    simp [headerSize]
  rw [MessageFramer.nextMessageLengthBytes, if_neg hne] at hnext
  rw [MessageFramer.receive, if_neg hne]
  simp only [hnext]
  rw [if_pos hlt]

theorem MessageFramer.receive_empty (b : Buffer) (maxLen t : Nat)
    (h : b.bytesUsed = 0) :
    MessageFramer.receive b maxLen t = (b, 0, []) := by
  rw [MessageFramer.receive, if_pos h]

theorem MessageFramer.receive_success (b : Buffer) (m : List Nat)
    (q : List (List Nat)) (maxLen t : Nat) (hInv : BufInv b)
    (hq : contents b = encodeList (m :: q)) (hm : m.length < 2 ^ 32)
    (hge : m.length ≤ maxLen) :
    (MessageFramer.receive b maxLen t).2.1 = m.length ∧
    (MessageFramer.receive b maxLen t).2.2 = m ∧
    BufInv (MessageFramer.receive b maxLen t).1 ∧
    contents (MessageFramer.receive b maxLen t).1 = encodeList q ∧
    (MessageFramer.receive b maxLen t).1.capacity = b.capacity ∧
    (MessageFramer.receive b maxLen t).1.mode = b.mode ∧
    (MessageFramer.receive b maxLen t).1.triggerLevelBytes = b.triggerLevelBytes ∧
    (MessageFramer.receive b maxLen t).1.bytesUsed
      = b.bytesUsed - (headerSize + m.length) := by
  have hnext := MessageFramer.nextLen_of_queue b m q hInv hq hm
  have hlenq : b.bytesUsed = (encodeList (m :: q)).length := by
    rw [← hq, contents_length]
  rw [encodeList_cons_length] at hlenq
  have hne : ¬ b.bytesUsed = 0 := by
    rw [hlenq]
    simp [headerSize]
  rw [MessageFramer.nextMessageLengthBytes, if_neg hne] at hnext
  have hnlt : ¬ maxLen < decodeHeader (readWrap b.storage b.tail headerSize) := by
    rw [hnext]
    omega
  obtain ⟨hr1out, hr1inv, hr1cont, hr1cap, hr1mode, hr1trig, hr1sto, hr1used⟩ :=
    RingStore.read_spec b headerSize hInv
  have hmin1 : min headerSize b.bytesUsed = headerSize := by
    simp [headerSize] at hlenq ⊢
    omega
  rw [hmin1] at hr1cont hr1used
  have hdrop : (contents b).drop headerSize = m ++ encodeList q := by
    rw [hq, encodeList_cons_assoc, List.drop_left' (encodeHeader_length m.length)]
  rw [hdrop] at hr1cont
  obtain ⟨hr2out, hr2inv, hr2cont, hr2cap, hr2mode, hr2trig, hr2sto, hr2used⟩ :=
    RingStore.read_spec (RingStore.read b headerSize).1 m.length hr1inv
  have hmin2 : min m.length (RingStore.read b headerSize).1.bytesUsed = m.length := by
    rw [hr1used]
    have hcl := congrArg List.length hr1cont
    rw [contents_length, hr1used] at hcl
    simp at hcl
    omega
  rw [hmin2] at hr2out hr2cont hr2used
  rw [hr1cont] at hr2out hr2cont
  rw [List.take_left' rfl] at hr2out
  rw [List.drop_left' rfl] at hr2cont
  have hrecv : MessageFramer.receive b maxLen t
      = ((RingStore.read (RingStore.read b headerSize).1
            (decodeHeader (readWrap b.storage b.tail headerSize))).1,
         decodeHeader (readWrap b.storage b.tail headerSize),
         (RingStore.read (RingStore.read b headerSize).1
            (decodeHeader (readWrap b.storage b.tail headerSize))).2) := by
    rw [MessageFramer.receive, if_neg hne]
    simp only [if_neg hnlt]
  rw [hnext] at hrecv
  rw [hrecv]
  refine ⟨rfl, hr2out, hr2inv, hr2cont, ?_, ?_, ?_, ?_⟩
  · rw [hr2cap, hr1cap]
  · rw [hr2mode, hr1mode]
  · rw [hr2trig, hr1trig]
  · rw [hr2used, hr1used]
    simp [headerSize] at hlenq ⊢
    omega

theorem MessageFramer.receive_inv (b : Buffer) (maxLen t : Nat) (hInv : BufInv b) :
    BufInv (MessageFramer.receive b maxLen t).1 ∧
    (MessageFramer.receive b maxLen t).1.capacity = b.capacity ∧
    (MessageFramer.receive b maxLen t).1.mode = b.mode ∧
    (MessageFramer.receive b maxLen t).1.triggerLevelBytes = b.triggerLevelBytes := by
  by_cases h0 : b.bytesUsed = 0
  · rw [MessageFramer.receive_empty b maxLen t h0]
    exact ⟨hInv, rfl, rfl, rfl⟩
  · by_cases hlt : maxLen < decodeHeader (readWrap b.storage b.tail headerSize)
    · have heq : MessageFramer.receive b maxLen t = (b, 0, []) := by
        rw [MessageFramer.receive, if_neg h0]
        simp only [if_pos hlt]
      rw [heq]
      exact ⟨hInv, rfl, rfl, rfl⟩
    · have hrecv : MessageFramer.receive b maxLen t
          = ((RingStore.read (RingStore.read b headerSize).1
                (decodeHeader (readWrap b.storage b.tail headerSize))).1,
             decodeHeader (readWrap b.storage b.tail headerSize),
             (RingStore.read (RingStore.read b headerSize).1
                (decodeHeader (readWrap b.storage b.tail headerSize))).2) := by
        rw [MessageFramer.receive, if_neg h0]
        simp only [if_neg hlt]
      obtain ⟨_, hr1inv, _, hr1cap, hr1mode, hr1trig, _, _⟩ :=
        RingStore.read_spec b headerSize hInv
      obtain ⟨_, hr2inv, _, hr2cap, hr2mode, hr2trig, _, _⟩ :=
        RingStore.read_spec (RingStore.read b headerSize).1
          (decodeHeader (readWrap b.storage b.tail headerSize)) hr1inv
      rw [hrecv]
      exact ⟨hr2inv, by rw [hr2cap, hr1cap], by rw [hr2mode, hr1mode],
             by rw [hr2trig, hr1trig]⟩

/-- Modelled from the spec (sections 2, 4, 6): one operation of the single
writer or the single reader on a buffer; `send`/`recv` dispatch on the
buffer's mode flag exactly as the macro-driven source API does. -/
inductive BufOp
  | send (data : List Nat) (timeout : Nat)
  | recv (maxLen : Nat) (timeout : Nat)
  | reset
deriving DecidableEq, Repr

/-- The state reached by one operation. -/
def applyOp (b : Buffer) : BufOp → Buffer
  | BufOp.send d t =>
    match b.mode with
    | Mode.Stream => (StreamBufferCore.send b d t).1
    | Mode.Message => (MessageFramer.send b d t).1
  | BufOp.recv m t =>
    match b.mode with
    | Mode.Stream => (StreamBufferCore.receive b m t).1
    | Mode.Message => (MessageFramer.receive b m t).1
  | BufOp.reset => (StreamBufferCore.reset b).1

/-- The state reached by a sequence of operations. -/
def runOps (b : Buffer) (ops : List BufOp) : Buffer := ops.foldl applyOp b

theorem applyOp_spec (b : Buffer) (op : BufOp) (hInv : BufInv b) :
    BufInv (applyOp b op) ∧
    (applyOp b op).capacity = b.capacity ∧
    (applyOp b op).mode = b.mode ∧
    ((applyOp b op).triggerLevelBytes = b.triggerLevelBytes ∨
      (applyOp b op).triggerLevelBytes = defaultTriggerLevelBytes) := by
  cases op with
  | send d t =>
    cases hm : b.mode with
    | Stream =>
      have happ : applyOp b (BufOp.send d t) = (StreamBufferCore.send b d t).1 := by
        rw [applyOp, hm]
      obtain ⟨_, hinv2, _, hcap, hmode, htrig, _⟩ := RingStore.write_spec b d hInv
      rw [happ]
      exact ⟨hinv2, hcap, hmode.trans hm, Or.inl htrig⟩
    | Message =>
      have happ : applyOp b (BufOp.send d t) = (MessageFramer.send b d t).1 := by
        rw [applyOp, hm]
      by_cases h2 : d.length + headerSize ≤ StreamBufferCore.spaceAvailable b
      · obtain ⟨_, hinv2, _, hcap, hmode, htrig, _⟩ :=
          MessageFramer.send_success b d t hInv h2
        rw [happ]
        exact ⟨hinv2, hcap, hmode.trans hm, Or.inl htrig⟩
      · rw [happ, MessageFramer.send_fail_of_no_space b d t h2]
        exact ⟨hInv, rfl, hm, Or.inl rfl⟩
  | recv m t =>
    cases hm : b.mode with
    | Stream =>
      have happ : applyOp b (BufOp.recv m t) = (StreamBufferCore.receive b m t).1 := by
        rw [applyOp, hm]
      obtain ⟨_, hinv2, _, hcap, hmode, htrig, _, _⟩ := RingStore.read_spec b m hInv
      rw [happ]
      exact ⟨hinv2, hcap, hmode.trans hm, Or.inl htrig⟩
    | Message =>
      have happ : applyOp b (BufOp.recv m t) = (MessageFramer.receive b m t).1 := by
        rw [applyOp, hm]
      obtain ⟨hinv2, hcap, hmode, htrig⟩ := MessageFramer.receive_inv b m t hInv
      rw [happ]
      exact ⟨hinv2, hcap, hmode.trans hm, Or.inl htrig⟩
  | reset =>
    have happ : applyOp b BufOp.reset = (StreamBufferCore.reset b).1 := rfl
    rw [happ, StreamBufferCore.reset]
    by_cases hw : b.writerWaiter || b.readerWaiter
    · rw [if_pos hw]
      exact ⟨hInv, rfl, rfl, Or.inl rfl⟩
    · rw [if_neg hw]
      obtain ⟨hlen, _, _⟩ := hInv
      exact ⟨⟨hlen, Nat.zero_le _, by simp⟩, rfl, rfl, Or.inr rfl⟩

theorem runOps_spec (ops : List BufOp) (b : Buffer) (hInv : BufInv b) :
    BufInv (runOps b ops) ∧
    (runOps b ops).capacity = b.capacity ∧
    (runOps b ops).mode = b.mode := by
  induction ops generalizing b with
  | nil => exact ⟨hInv, rfl, rfl⟩
  | cons op ops ih =>
    obtain ⟨hinv2, hcap, hmode, _⟩ := applyOp_spec b op hInv
    obtain ⟨hinv3, hcap3, hmode3⟩ := ih (applyOp b op) hinv2
    refine ⟨hinv3, ?_, ?_⟩
    · rw [show runOps b (op :: ops) = runOps (applyOp b op) ops from rfl, hcap3, hcap]
    · rw [show runOps b (op :: ops) = runOps (applyOp b op) ops from rfl, hmode3, hmode]

theorem runOps_trigger (ops : List BufOp) (b : Buffer) (hInv : BufInv b)
    (ht : b.triggerLevelBytes = defaultTriggerLevelBytes) :
    (runOps b ops).triggerLevelBytes = defaultTriggerLevelBytes := by
  induction ops generalizing b with
  | nil => exact ht
  | cons op ops ih =>
    obtain ⟨hinv2, _, _, htrig⟩ := applyOp_spec b op hInv
    rw [show runOps b (op :: ops) = runOps (applyOp b op) ops from rfl]
    apply ih (applyOp b op) hinv2
    cases htrig with
    | inl h => rw [h, ht]
    | inr h => exact h

/-- The bytes (Stream mode) or message (Message mode) actually accepted by
one send call: in Stream mode the prefix the buffer committed, in Message
mode the whole message when the record was stored and nothing otherwise. -/
def sendPiece (b : Buffer) (d : List Nat) (t : Nat) : List (List Nat) :=
  match b.mode with
  | Mode.Stream => [d.take (StreamBufferCore.send b d t).2]
  | Mode.Message => if (MessageFramer.send b d t).2 = 0 then [] else [d]

/-- The bytes or message returned by one receive call. -/
def recvPiece (b : Buffer) (m t : Nat) : List (List Nat) :=
  match b.mode with
  | Mode.Stream => [(StreamBufferCore.receive b m t).2]
  | Mode.Message =>
    if (MessageFramer.receive b m t).2.1 = 0 then []
    else [(MessageFramer.receive b m t).2.2]

/-- All pieces accepted by the sends of an operation sequence, in send
order. -/
def acceptedPieces (b : Buffer) : List BufOp → List (List Nat)
  | [] => []
  | BufOp.send d t :: ops =>
    sendPiece b d t ++ acceptedPieces (applyOp b (BufOp.send d t)) ops
  | BufOp.recv m t :: ops => acceptedPieces (applyOp b (BufOp.recv m t)) ops
  | BufOp.reset :: ops => acceptedPieces (applyOp b BufOp.reset) ops

/-- All pieces returned by the receives of an operation sequence, in receive
order. -/
def receivedPieces (b : Buffer) : List BufOp → List (List Nat)
  | [] => []
  | BufOp.send d t :: ops => receivedPieces (applyOp b (BufOp.send d t)) ops
  | BufOp.recv m t :: ops =>
    recvPiece b m t ++ receivedPieces (applyOp b (BufOp.recv m t)) ops
  | BufOp.reset :: ops => receivedPieces (applyOp b BufOp.reset) ops

theorem sendPiece_stream (b : Buffer) (d : List Nat) (t : Nat)
    (h : b.mode = Mode.Stream) :
    sendPiece b d t = [d.take (StreamBufferCore.send b d t).2] := by
  rw [sendPiece, h]

theorem sendPiece_message (b : Buffer) (d : List Nat) (t : Nat)
    (h : b.mode = Mode.Message) :
    sendPiece b d t
      = if (MessageFramer.send b d t).2 = 0 then [] else [d] := by
  rw [sendPiece, h]

theorem recvPiece_stream (b : Buffer) (m t : Nat) (h : b.mode = Mode.Stream) :
    recvPiece b m t = [(StreamBufferCore.receive b m t).2] := by
  rw [recvPiece, h]

theorem recvPiece_message (b : Buffer) (m t : Nat) (h : b.mode = Mode.Message) :
    recvPiece b m t
      = if (MessageFramer.receive b m t).2.1 = 0 then []
        else [(MessageFramer.receive b m t).2.2] := by
  rw [recvPiece, h]

theorem encodeList_append (q1 q2 : List (List Nat)) :
    encodeList (q1 ++ q2) = encodeList q1 ++ encodeList q2 := by
  induction q1 with
  | nil => simp [encodeList]
  | cons m q ih => simp [encodeList, ih]

theorem stream_run_fifo (ops : List BufOp) :
    ∀ (b : Buffer), BufInv b → b.mode = Mode.Stream → BufOp.reset ∉ ops →
      (receivedPieces b ops).flatten ++ contents (runOps b ops)
        = contents b ++ (acceptedPieces b ops).flatten := by
  induction ops with
  | nil =>
    intro b _ _ _
    simp [receivedPieces, acceptedPieces, runOps]
  | cons op ops ih =>
    intro b hInv hmode hnr
    have hnr2 : BufOp.reset ∉ ops := fun hc => hnr (List.mem_cons_of_mem _ hc)
    cases op with
    | send d t =>
      have happ : applyOp b (BufOp.send d t) = (StreamBufferCore.send b d t).1 := by
        rw [applyOp, hmode]
      obtain ⟨_, hinv2, hcont, _, hmode2, _, _⟩ := RingStore.write_spec b d hInv
      have hrun : runOps b (BufOp.send d t :: ops)
          = runOps (applyOp b (BufOp.send d t)) ops := rfl
      rw [hrun, receivedPieces, acceptedPieces,
          ih (applyOp b (BufOp.send d t)) (by rw [happ]; exact hinv2)
            (by rw [happ]; exact hmode2.trans hmode) hnr2,
          sendPiece_stream b d t hmode]
      rw [show contents (applyOp b (BufOp.send d t))
            = contents b ++ d.take (StreamBufferCore.send b d t).2 from by
          rw [happ]
          exact hcont]
      simp [List.append_assoc]
    | recv m t =>
      have happ : applyOp b (BufOp.recv m t) = (StreamBufferCore.receive b m t).1 := by
        rw [applyOp, hmode]
      obtain ⟨hout, hinv2, hcont, _, hmode2, _, _, _⟩ := RingStore.read_spec b m hInv
      have hrun : runOps b (BufOp.recv m t :: ops)
          = runOps (applyOp b (BufOp.recv m t)) ops := rfl
      rw [hrun, receivedPieces, acceptedPieces,
          recvPiece_stream b m t hmode]
      rw [List.flatten_append, List.append_assoc,
          ih (applyOp b (BufOp.recv m t)) (by rw [happ]; exact hinv2)
            (by rw [happ]; exact hmode2.trans hmode) hnr2]
      rw [show contents (applyOp b (BufOp.recv m t))
            = (contents b).drop (min m b.bytesUsed) from by
          rw [happ]
          exact hcont]
      have hout2 : (StreamBufferCore.receive b m t).2
          = (contents b).take (min m b.bytesUsed) := hout
      simp only [List.flatten_cons, List.flatten_nil, List.append_nil, hout2]
      rw [← List.append_assoc, List.take_append_drop]
    | reset =>
      exact (hnr (List.mem_cons_self _ _)).elim

theorem msg_run_fifo (ops : List BufOp) :
    ∀ (b : Buffer) (q : List (List Nat)),
      BufInv b → b.mode = Mode.Message → BufOp.reset ∉ ops →
      b.capacity < 2 ^ 32 →
      (∀ d t, BufOp.send d t ∈ ops → d ≠ []) →
      contents b = encodeList q →
      (∀ m ∈ q, m ≠ [] ∧ m.length + headerSize ≤ b.capacity) →
      ∃ q2, contents (runOps b ops) = encodeList q2 ∧
        (∀ m ∈ q2, m ≠ [] ∧ m.length + headerSize ≤ b.capacity) ∧
        receivedPieces b ops ++ q2 = q ++ acceptedPieces b ops := by
  induction ops with
  | nil =>
    intro b q _ _ _ _ _ hq hwf
    exact ⟨q, hq, hwf, by simp [receivedPieces, acceptedPieces]⟩
  | cons op ops ih =>
    intro b q hInv hmode hnr hcap hne hq hwf
    have hnr2 : BufOp.reset ∉ ops := fun hc => hnr (List.mem_cons_of_mem _ hc)
    cases op with
    | send d t =>
      have hne2 : ∀ d2 t2, BufOp.send d2 t2 ∈ ops → d2 ≠ [] :=
        fun d2 t2 hmem => hne d2 t2 (List.mem_cons_of_mem _ hmem)
      have hdne : d ≠ [] := hne d t (List.mem_cons_self _ _)
      have happ : applyOp b (BufOp.send d t) = (MessageFramer.send b d t).1 := by
        rw [applyOp, hmode]
      by_cases h2 : d.length + headerSize ≤ StreamBufferCore.spaceAvailable b
      · obtain ⟨hret, hinv2, hcont, hcap2, hmode2, _, _⟩ :=
          MessageFramer.send_success b d t hInv h2
        have hd4 : d.length + headerSize ≤ b.capacity := by
          have hsc : StreamBufferCore.spaceAvailable b ≤ b.capacity := by
            unfold StreamBufferCore.spaceAvailable RingStore.freeSpace
            omega
          omega
        have hq2 : contents (applyOp b (BufOp.send d t)) = encodeList (q ++ [d]) := by
          rw [happ, hcont, hq, encodeList_append]
          simp [encodeList]
        have hwf2 : ∀ m ∈ q ++ [d],
            m ≠ [] ∧ m.length + headerSize ≤ (applyOp b (BufOp.send d t)).capacity := by
          intro m hm
          rw [happ, hcap2]
          rcases List.mem_append.mp hm with hm1 | hm2
          · exact hwf m hm1
          · rw [List.mem_singleton.mp hm2]
            exact ⟨hdne, hd4⟩
        obtain ⟨q2, hq2', hwf2', heq⟩ :=
          ih (applyOp b (BufOp.send d t)) (q ++ [d])
            (by rw [happ]; exact hinv2)
            (by rw [happ]; exact hmode2.trans hmode) hnr2
            (by rw [happ, hcap2]; exact hcap) hne2 hq2 hwf2
        refine ⟨q2, hq2', ?_, ?_⟩
        · intro m hm
          have hr := hwf2' m hm
          rw [happ, hcap2] at hr
          exact hr
        · rw [receivedPieces, acceptedPieces, sendPiece_message b d t hmode]
          rw [if_neg (by
            rw [hret]
            exact fun hc => hdne (List.length_eq_zero.mp hc))]
          rw [heq, List.append_assoc]
      · have hfail := MessageFramer.send_fail_of_no_space b d t h2
        have happb : applyOp b (BufOp.send d t) = b := by rw [happ, hfail]
        obtain ⟨q2, hq2', hwf2', heq⟩ :=
          ih (applyOp b (BufOp.send d t)) q
            (by rw [happb]; exact hInv) (by rw [happb]; exact hmode) hnr2
            (by rw [happb]; exact hcap) hne2 (by rw [happb]; exact hq)
            (by rw [happb]; exact hwf)
        refine ⟨q2, hq2', by rw [happb] at hwf2'; exact hwf2', ?_⟩
        rw [receivedPieces, acceptedPieces, sendPiece_message b d t hmode]
        rw [if_pos (by rw [hfail])]
        rw [heq]
        simp
    | recv mlen t =>
      have hne2 : ∀ d2 t2, BufOp.send d2 t2 ∈ ops → d2 ≠ [] :=
        fun d2 t2 hmem => hne d2 t2 (List.mem_cons_of_mem _ hmem)
      have happ : applyOp b (BufOp.recv mlen t) = (MessageFramer.receive b mlen t).1 := by
        rw [applyOp, hmode]
      cases q with
      | nil =>
        have hused0 : b.bytesUsed = 0 := by
          have hc := contents_length b
          rw [hq] at hc
          simpa [encodeList] using hc.symm
        have hrecv := MessageFramer.receive_empty b mlen t hused0
        have happb : applyOp b (BufOp.recv mlen t) = b := by rw [happ, hrecv]
        obtain ⟨q2, hq2', hwf2', heq⟩ :=
          ih (applyOp b (BufOp.recv mlen t)) []
            (by rw [happb]; exact hInv) (by rw [happb]; exact hmode) hnr2
            (by rw [happb]; exact hcap) hne2 (by rw [happb]; exact hq)
            (by rw [happb]; intro m hm; cases hm)
        refine ⟨q2, hq2', by rw [happb] at hwf2'; exact hwf2', ?_⟩
        rw [receivedPieces, acceptedPieces, recvPiece_message b mlen t hmode]
        rw [if_pos (by rw [hrecv])]
        simpa using heq
      | cons m0 q1 =>
        have hm0 := hwf m0 (List.mem_cons_self _ _)
        have hm0len : m0.length < 2 ^ 32 := by
          have hb := hm0.2
          simp [headerSize] at hb
          omega
        by_cases hlt : mlen < m0.length
        · have hrecv :=
            MessageFramer.receive_undersized b m0 q1 mlen t hInv hq hm0len hlt
          have happb : applyOp b (BufOp.recv mlen t) = b := by rw [happ, hrecv]
          obtain ⟨q2, hq2', hwf2', heq⟩ :=
            ih (applyOp b (BufOp.recv mlen t)) (m0 :: q1)
              (by rw [happb]; exact hInv) (by rw [happb]; exact hmode) hnr2
              (by rw [happb]; exact hcap) hne2 (by rw [happb]; exact hq)
              (by rw [happb]; exact hwf)
          refine ⟨q2, hq2', by rw [happb] at hwf2'; exact hwf2', ?_⟩
          rw [receivedPieces, acceptedPieces, recvPiece_message b mlen t hmode]
          rw [if_pos (by rw [hrecv])]
          simpa using heq
        · have hge : m0.length ≤ mlen := by omega
          obtain ⟨hcount, hpay, hinv2, hcont2, hcap2, hmode2, _, _⟩ :=
            MessageFramer.receive_success b m0 q1 mlen t hInv hq hm0len hge
          have hm0ne : m0 ≠ [] := hm0.1
          have hwf1 : ∀ m ∈ q1,
              m ≠ [] ∧ m.length + headerSize ≤ (applyOp b (BufOp.recv mlen t)).capacity := by
            intro m hm
            rw [happ, hcap2]
            exact hwf m (List.mem_cons_of_mem _ hm)
          obtain ⟨q2, hq2', hwf2', heq⟩ :=
            ih (applyOp b (BufOp.recv mlen t)) q1
              (by rw [happ]; exact hinv2)
              (by rw [happ]; exact hmode2.trans hmode) hnr2
              (by rw [happ, hcap2]; exact hcap) hne2
              (by rw [happ]; exact hcont2) hwf1
          refine ⟨q2, hq2', ?_, ?_⟩
          · intro m hm
            have hr := hwf2' m hm
            rw [happ, hcap2] at hr
            exact hr
          · rw [receivedPieces, acceptedPieces, recvPiece_message b mlen t hmode]
            rw [if_neg (by
              rw [hcount]
              exact fun hc => hm0ne (List.length_eq_zero.mp hc))]
            rw [hpay, List.append_assoc, heq]
            rfl
    | reset =>
      exact (hnr (List.mem_cons_self _ _)).elim

theorem freshBuffer_inv (C : Nat) (m : Mode) (t : Nat) :
    BufInv (freshBuffer C m t) :=
  ⟨by simp [freshBuffer], Nat.zero_le _, rfl⟩

theorem contents_freshBuffer (C : Nat) (m : Mode) (t : Nat) :
    contents (freshBuffer C m t) = [] := by
  simp [contents, freshBuffer, readWrap]

/-- C1: FIFO delivery: for a buffer with exactly one writer and one reader
(modelled as a single sequence of interleaved send and receive operations run
against the buffer), the bytes (Stream mode) or messages (Message mode)
returned by receive are exactly the ones accepted by send, in send order,
with no reordering or duplication: the received part followed by what is
still buffered equals the accepted part.  In Message mode the sends are
nonempty messages and the capacity is a `size_t` value. -/
theorem fifo_delivery (C : Nat) (ops : List BufOp)
    (hnr : BufOp.reset ∉ ops) (hC : C < 2 ^ 32)
    (hmsg : ∀ d t, BufOp.send d t ∈ ops → d ≠ []) :
    ((receivedPieces (freshBuffer C Mode.Stream defaultTriggerLevelBytes) ops).flatten
        ++ contents (runOps (freshBuffer C Mode.Stream defaultTriggerLevelBytes) ops)
      = (acceptedPieces (freshBuffer C Mode.Stream defaultTriggerLevelBytes) ops).flatten)
    ∧ (receivedPieces (freshBuffer C Mode.Message defaultTriggerLevelBytes) ops
        ++ decodeRecords
            (contents (runOps (freshBuffer C Mode.Message defaultTriggerLevelBytes) ops))
      = acceptedPieces (freshBuffer C Mode.Message defaultTriggerLevelBytes) ops) := by
  constructor
  · have hs := stream_run_fifo ops (freshBuffer C Mode.Stream defaultTriggerLevelBytes)
      (freshBuffer_inv C Mode.Stream defaultTriggerLevelBytes) rfl hnr
    rw [contents_freshBuffer] at hs
    simpa using hs
  · obtain ⟨q2, hq2, hwf2, heq⟩ :=
      msg_run_fifo ops (freshBuffer C Mode.Message defaultTriggerLevelBytes) []
        (freshBuffer_inv C Mode.Message defaultTriggerLevelBytes) rfl hnr
        (by simpa [freshBuffer] using hC) hmsg
        (contents_freshBuffer C Mode.Message defaultTriggerLevelBytes)
        (by intro m hm; cases hm)
    rw [hq2, decodeRecords_encodeList q2 (by
      intro m hm
      have := (hwf2 m hm).2
      simp [freshBuffer, headerSize] at this
      omega)]
    simpa using heq

theorem fifo_delivery_witness :
    ((receivedPieces (freshBuffer 8 Mode.Stream defaultTriggerLevelBytes)
        [BufOp.send [1, 2] 0, BufOp.recv 5 0]).flatten
      ++ contents (runOps (freshBuffer 8 Mode.Stream defaultTriggerLevelBytes)
        [BufOp.send [1, 2] 0, BufOp.recv 5 0])
      = (acceptedPieces (freshBuffer 8 Mode.Stream defaultTriggerLevelBytes)
        [BufOp.send [1, 2] 0, BufOp.recv 5 0]).flatten)
    ∧ (receivedPieces (freshBuffer 8 Mode.Message defaultTriggerLevelBytes)
        [BufOp.send [1, 2] 0, BufOp.recv 5 0]
      ++ decodeRecords
          (contents (runOps (freshBuffer 8 Mode.Message defaultTriggerLevelBytes)
            [BufOp.send [1, 2] 0, BufOp.recv 5 0]))
      = acceptedPieces (freshBuffer 8 Mode.Message defaultTriggerLevelBytes)
        [BufOp.send [1, 2] 0, BufOp.recv 5 0]) :=
  fifo_delivery 8 [BufOp.send [1, 2] 0, BufOp.recv 5 0]
    (by decide) (by decide)
    (by
      intro d t hmem
      simp at hmem
      obtain ⟨hd, -⟩ := hmem
      subst hd
      simp)

/-- A concrete Message-mode buffer holding the single record of the 2-byte
payload `[9, 7]`, used by the atomicity witness. -/
def msgBuf0 : Buffer :=
  { capacity := 8
    storage := [2, 0, 0, 0, 9, 7, 0, 0]
    head := 6
    tail := 0
    bytesUsed := 6
    triggerLevelBytes := 1
    mode := Mode.Message
    writerWaiter := false
    readerWaiter := false }

/-- C2: Message-receive atomicity on an undersized destination: if the next
record of a Message-mode buffer has payload length `L` and the receive
destination is smaller than `L`, receive returns 0 and leaves the whole
buffer state unchanged; `nextMessageLengthBytes` still reports `L`, and a
later receive with a destination of at least `L` returns the same `L`-byte
payload and consumes header plus payload. -/
theorem message_receive_atomicity (b : Buffer) (msg : List Nat)
    (q : List (List Nat)) (maxLen maxLen2 t t2 : Nat)
    (hInv : BufInv b) (hmode : b.mode = Mode.Message)
    (hq : contents b = encodeList (msg :: q)) (hlen : msg.length < 2 ^ 32)
    (hsmall : maxLen < msg.length) (hbig : msg.length ≤ maxLen2) :
    MessageFramer.receive b maxLen t = (b, 0, []) ∧
    MessageFramer.nextMessageLengthBytes b = msg.length ∧
    (MessageFramer.receive b maxLen2 t2).2.1 = msg.length ∧
    (MessageFramer.receive b maxLen2 t2).2.2 = msg ∧
    (MessageFramer.receive b maxLen2 t2).1.bytesUsed
      = b.bytesUsed - (headerSize + msg.length) ∧
    contents (MessageFramer.receive b maxLen2 t2).1 = encodeList q := by
  obtain ⟨hcount, hpay, _, hcont, _, _, _, hused⟩ :=
    MessageFramer.receive_success b msg q maxLen2 t2 hInv hq hlen hbig
  exact ⟨MessageFramer.receive_undersized b msg q maxLen t hInv hq hlen hsmall,
         MessageFramer.nextLen_of_queue b msg q hInv hq hlen,
         hcount, hpay, hused, hcont⟩

theorem message_receive_atomicity_witness :
    MessageFramer.receive msgBuf0 1 100 = (msgBuf0, 0, []) ∧
    MessageFramer.nextMessageLengthBytes msgBuf0 = 2 ∧
    (MessageFramer.receive msgBuf0 2 100).2.1 = 2 ∧
    (MessageFramer.receive msgBuf0 2 100).2.2 = [9, 7] ∧
    (MessageFramer.receive msgBuf0 2 100).1.bytesUsed = 0 :=
  have h := message_receive_atomicity msgBuf0 [9, 7] [] 1 2 100 100
    (by decide) rfl (by decide) (by decide) (by decide) (by decide)
  ⟨h.1, by simpa using h.2.1, by simpa using h.2.2.1, h.2.2.2.1,
   by simpa [headerSize, msgBuf0] using h.2.2.2.2.1⟩

/-- C3: Oversized-message send fails immediately: on a Message-mode buffer of
capacity `C`, sending a message with `len + headerSize > C` returns 0 and
leaves the buffer unchanged, for every timeout value (the model's result does
not depend on the timeout parameter at all, so this covers an effectively
infinite timeout). -/
theorem oversized_send_fails (b : Buffer) (msg : List Nat) (timeout : Nat)
    (hmode : b.mode = Mode.Message)
    (hover : msg.length + headerSize > b.capacity) :
    MessageFramer.send b msg timeout = (b, 0) :=
  MessageFramer.send_oversized b msg timeout hover

theorem oversized_send_fails_witness :
    MessageFramer.send (freshBuffer 4 Mode.Message 1) [5] 999999
      = (freshBuffer 4 Mode.Message 1, 0) :=
  oversized_send_fails (freshBuffer 4 Mode.Message 1) [5] 999999 rfl (by decide)

/-- C4: Reset guard with atomicity: `reset` fails and returns the entire
buffer state unchanged when a writer or reader waiter is registered; with
both waiter slots empty it succeeds, zeroes `head`, `tail` and `bytesUsed`,
and reverts the trigger level to its default, touching nothing else. -/
theorem reset_guard (b : Buffer) :
    ((b.writerWaiter = true ∨ b.readerWaiter = true) →
      StreamBufferCore.reset b = (b, false)) ∧
    (b.writerWaiter = false → b.readerWaiter = false →
      (StreamBufferCore.reset b).2 = true ∧
      (StreamBufferCore.reset b).1.head = 0 ∧
      (StreamBufferCore.reset b).1.tail = 0 ∧
      (StreamBufferCore.reset b).1.bytesUsed = 0 ∧
      (StreamBufferCore.reset b).1.triggerLevelBytes = defaultTriggerLevelBytes ∧
      (StreamBufferCore.reset b).1.capacity = b.capacity ∧
      (StreamBufferCore.reset b).1.storage = b.storage ∧
      (StreamBufferCore.reset b).1.mode = b.mode) := by
  constructor
  · intro hw
    rw [StreamBufferCore.reset, if_pos]
    rcases hw with h | h <;> simp [h]
  · intro hw hr
    rw [StreamBufferCore.reset, if_neg (by simp [hw, hr])]
    exact ⟨rfl, rfl, rfl, rfl, rfl, rfl, rfl, rfl⟩

/-- A buffer with a registered reader waiter, used by the reset witness. -/
def busyBuf0 : Buffer :=
  { capacity := 4
    storage := [1, 2, 3, 4]
    head := 3
    tail := 1
    bytesUsed := 2
    triggerLevelBytes := 1
    mode := Mode.Stream
    writerWaiter := false
    readerWaiter := true }

/-- A waiter-free buffer with nonzero counters, used by the reset witness. -/
def idleBuf0 : Buffer :=
  { capacity := 4
    storage := [1, 2, 3, 4]
    head := 3
    tail := 1
    bytesUsed := 2
    triggerLevelBytes := 3
    mode := Mode.Stream
    writerWaiter := false
    readerWaiter := false }

theorem reset_guard_witness :
    StreamBufferCore.reset busyBuf0 = (busyBuf0, false) ∧
    (StreamBufferCore.reset idleBuf0).2 = true ∧
    (StreamBufferCore.reset idleBuf0).1.bytesUsed = 0 ∧
    (StreamBufferCore.reset idleBuf0).1.triggerLevelBytes = defaultTriggerLevelBytes ∧
    (StreamBufferCore.reset idleBuf0).1.storage = idleBuf0.storage :=
  ⟨(reset_guard busyBuf0).1 (Or.inr rfl),
   ((reset_guard idleBuf0).2 rfl rfl).1,
   ((reset_guard idleBuf0).2 rfl rfl).2.2.2.1,
   ((reset_guard idleBuf0).2 rfl rfl).2.2.2.2.1,
   ((reset_guard idleBuf0).2 rfl rfl).2.2.2.2.2.2.1⟩

/-- A Message-mode buffer with 2 free bytes (less than a header), used by the
fullness claim. -/
def msgBuf0Full : Buffer :=
  { capacity := 8
    storage := List.replicate 8 0
    head := 6
    tail := 0
    bytesUsed := 6
    triggerLevelBytes := 1
    mode := Mode.Message
    writerWaiter := false
    readerWaiter := false }

/-- C5: Message-mode fullness predicate: `isFull` is true exactly when
`spaceAvailable` is below the smallest encodable record of the mode (per the
component-design section, header plus 0-byte payload, i.e. `headerSize`
bytes; the testable-properties section instead says header plus 1) and not
merely when free space is literally 0: the literal-zero reading is refuted by
a Message-mode buffer with 2 free bytes that is already full. -/
theorem message_isFull_iff (b : Buffer) (hmode : b.mode = Mode.Message) :
    (StreamBufferCore.isFull b = true
      ↔ StreamBufferCore.spaceAvailable b < minEncodableUnit Mode.Message) ∧
    minEncodableUnit Mode.Message = headerSize ∧
    ¬ (∀ b2 : Buffer, b2.mode = Mode.Message →
        (StreamBufferCore.isFull b2 = true
          ↔ StreamBufferCore.spaceAvailable b2 = 0)) := by
  refine ⟨by simp [StreamBufferCore.isFull, hmode], rfl, ?_⟩
  intro hall
  have h2 := (hall msgBuf0Full rfl).mp (by decide)
  exact absurd h2 (by decide)

theorem message_isFull_iff_witness :
    StreamBufferCore.isFull msgBuf0Full = true ∧
    StreamBufferCore.spaceAvailable msgBuf0Full = 2 :=
  ⟨(message_isFull_iff msgBuf0Full rfl).1.mpr (by decide), by decide⟩

/-- C6: Default trigger level: a buffer created without an explicit trigger
level has `triggerLevelBytes = 1`, and this persists across every operation
sequence, so the reader-wake gate opens exactly when at least one byte is
present in the buffer. -/
theorem default_trigger_level (allocOk : Bool) (C : Nat) (m : Mode) (b : Buffer)
    (hc : createDefault allocOk C m = some b) :
    b.triggerLevelBytes = 1 ∧
    ∀ ops : List BufOp,
      StreamBufferCore.readerWakeGate (runOps b ops) = true
        ↔ 1 ≤ (runOps b ops).bytesUsed := by
  cases allocOk with
  | false => simp [createDefault, create] at hc
  | true =>
    simp only [createDefault, create, if_true, Option.some.injEq] at hc
    subst hc
    refine ⟨rfl, ?_⟩
    intro ops
    have htrig := runOps_trigger ops (freshBuffer C m defaultTriggerLevelBytes)
      (freshBuffer_inv C m defaultTriggerLevelBytes) rfl
    rw [StreamBufferCore.readerWakeGate, htrig]
    simp [defaultTriggerLevelBytes]

theorem default_trigger_level_witness :
    (freshBuffer 5 Mode.Stream defaultTriggerLevelBytes).triggerLevelBytes = 1 ∧
    (StreamBufferCore.readerWakeGate
        (runOps (freshBuffer 5 Mode.Stream defaultTriggerLevelBytes) [BufOp.send [7] 0]) = true
      ↔ 1 ≤ (runOps (freshBuffer 5 Mode.Stream defaultTriggerLevelBytes)
              [BufOp.send [7] 0]).bytesUsed) :=
  ⟨(default_trigger_level true 5 Mode.Stream _ rfl).1,
   (default_trigger_level true 5 Mode.Stream _ rfl).2 [BufOp.send [7] 0]⟩

/-- Whether an operation is a send. -/
def BufOp.isSend : BufOp → Bool
  | BufOp.send _ _ => true
  | _ => false

/-- C7 (counterexample): the attainability part of the claim fails as stated:
on a Message-mode buffer created with capacity 1, no operation sequence at
all (in particular no sequence of sends) ever brings `bytesUsed` to 1,
because every record needs at least `headerSize` bytes. -/
theorem capacity_attainability_counterexample :
    ¬ ∃ ops : List BufOp,
      (runOps (freshBuffer 1 Mode.Message defaultTriggerLevelBytes) ops).bytesUsed = 1 := by
  rintro ⟨ops, hops⟩
  have key : ∀ (ops2 : List BufOp) (b : Buffer), b.capacity = 1 → b.mode = Mode.Message →
      b.bytesUsed = 0 → (runOps b ops2).bytesUsed = 0 := by
    intro ops2
    induction ops2 with
    | nil =>
      intro b _ _ h0
      exact h0
    | cons op ops2 ih =>
      intro b hcap hmode h0
      have hstep : (applyOp b op).capacity = 1 ∧ (applyOp b op).mode = Mode.Message ∧
          (applyOp b op).bytesUsed = 0 := by
        cases op with
        | send d t =>
          have happ : applyOp b (BufOp.send d t) = (MessageFramer.send b d t).1 := by
            rw [applyOp, hmode]
          have hover : d.length + headerSize > b.capacity := by
            rw [hcap]
            simp [headerSize]
          rw [happ, MessageFramer.send_oversized b d t hover]
          exact ⟨hcap, hmode, h0⟩
        | recv m t =>
          have happ : applyOp b (BufOp.recv m t) = (MessageFramer.receive b m t).1 := by
            rw [applyOp, hmode]
          rw [happ, MessageFramer.receive_empty b m t h0]
          exact ⟨hcap, hmode, h0⟩
        | reset =>
          have happ : applyOp b BufOp.reset = (StreamBufferCore.reset b).1 := rfl
          rw [happ, StreamBufferCore.reset]
          by_cases hw : b.writerWaiter || b.readerWaiter
          · rw [if_pos hw]
            exact ⟨hcap, hmode, h0⟩
          · rw [if_neg hw]
            exact ⟨hcap, hmode, rfl⟩
      exact ih (applyOp b op) hstep.1 hstep.2.1 hstep.2.2
  have h0 := key ops (freshBuffer 1 Mode.Message defaultTriggerLevelBytes) rfl rfl rfl
  omega

/-- C7 (amended): every reachable state of a buffer created with capacity `C`
satisfies `bytesUsed ≤ C` with the capacity unchanged, and
`spaceAvailable = C - bytesUsed` always; the bound `C` is attained by a
sequence of sends for every Stream-mode buffer, and for a Message-mode buffer
whenever `C = 0` or `C ≥ headerSize` (for `0 < C < headerSize` in Message
mode it is unattainable, as the counterexample shows). -/
theorem capacity_bound_attainable (C triggerLevel : Nat) (m : Mode) (ops : List BufOp) :
    (runOps (freshBuffer C m triggerLevel) ops).bytesUsed
        ≤ (runOps (freshBuffer C m triggerLevel) ops).capacity ∧
    (runOps (freshBuffer C m triggerLevel) ops).capacity = C ∧
    StreamBufferCore.spaceAvailable (runOps (freshBuffer C m triggerLevel) ops)
      = C - (runOps (freshBuffer C m triggerLevel) ops).bytesUsed ∧
    (m = Mode.Stream →
      ∃ sends : List BufOp, (∀ op ∈ sends, op.isSend = true) ∧
        (runOps (freshBuffer C m triggerLevel) sends).bytesUsed = C) ∧
    (m = Mode.Message → (C = 0 ∨ headerSize ≤ C) →
      ∃ sends : List BufOp, (∀ op ∈ sends, op.isSend = true) ∧
        (runOps (freshBuffer C m triggerLevel) sends).bytesUsed = C) := by
  obtain ⟨⟨_, hle, _⟩, hcap, _⟩ :=
    runOps_spec ops (freshBuffer C m triggerLevel) (freshBuffer_inv C m triggerLevel)
  have hcapC : (runOps (freshBuffer C m triggerLevel) ops).capacity = C := by
    rw [hcap, freshBuffer]
  refine ⟨by rw [hcapC] at hle ⊢; exact hle, hcapC, ?_, ?_, ?_⟩
  · rw [StreamBufferCore.spaceAvailable, RingStore.freeSpace, hcapC]
  · intro hm
    subst hm
    refine ⟨[BufOp.send (List.replicate C 0) 0], ?_, ?_⟩
    · intro op hop
      rw [List.mem_singleton.mp hop]
      rfl
    · show (applyOp (freshBuffer C Mode.Stream triggerLevel)
          (BufOp.send (List.replicate C 0) 0)).bytesUsed = C
      simp [applyOp, StreamBufferCore.send, RingStore.write, RingStore.freeSpace,
        freshBuffer]
  · intro hm hC
    subst hm
    rcases hC with h0 | h4
    · refine ⟨[], ?_, ?_⟩
      · intro op hop
        cases hop
      · show (freshBuffer C Mode.Message triggerLevel).bytesUsed = C
        rw [h0]
        rfl
    · refine ⟨[BufOp.send (List.replicate (C - headerSize) 0) 0], ?_, ?_⟩
      · intro op hop
        rw [List.mem_singleton.mp hop]
        rfl
      · have hfree : (List.replicate (C - headerSize) 0).length + headerSize
            ≤ StreamBufferCore.spaceAvailable (freshBuffer C Mode.Message triggerLevel) := by
          simp [StreamBufferCore.spaceAvailable, RingStore.freeSpace, freshBuffer]
          omega
        obtain ⟨_, _, _, _, _, _, hused⟩ :=
          MessageFramer.send_success (freshBuffer C Mode.Message triggerLevel)
            (List.replicate (C - headerSize) 0) 0
            (freshBuffer_inv C Mode.Message triggerLevel) hfree
        show (applyOp (freshBuffer C Mode.Message triggerLevel)
            (BufOp.send (List.replicate (C - headerSize) 0) 0)).bytesUsed = C
        have happ : applyOp (freshBuffer C Mode.Message triggerLevel)
            (BufOp.send (List.replicate (C - headerSize) 0) 0)
          = (MessageFramer.send (freshBuffer C Mode.Message triggerLevel)
              (List.replicate (C - headerSize) 0) 0).1 := rfl
        rw [happ, hused]
        simp [freshBuffer, headerSize] at h4 ⊢
        omega

theorem capacity_bound_attainable_witness :
    ((runOps (freshBuffer 10 Mode.Stream 1) [BufOp.send [1, 2, 3] 0]).bytesUsed
        ≤ (runOps (freshBuffer 10 Mode.Stream 1) [BufOp.send [1, 2, 3] 0]).capacity) ∧
    (∃ sends : List BufOp, (∀ op ∈ sends, op.isSend = true) ∧
      (runOps (freshBuffer 10 Mode.Stream 1) sends).bytesUsed = 10) ∧
    (∃ sends : List BufOp, (∀ op ∈ sends, op.isSend = true) ∧
      (runOps (freshBuffer 12 Mode.Message 1) sends).bytesUsed = 12) :=
  ⟨(capacity_bound_attainable 10 1 Mode.Stream [BufOp.send [1, 2, 3] 0]).1,
   (capacity_bound_attainable 10 1 Mode.Stream []).2.2.2.1 rfl,
   (capacity_bound_attainable 12 1 Mode.Message []).2.2.2.2 rfl (Or.inr (by decide))⟩

/-- C8: Creation failure yields no handle: dynamic creation returns no handle
when allocation fails, static creation returns no handle when the supplied
storage area or the buffer structure is absent or the storage is too small;
in every successful case the returned handle is the one fully-constructed
fresh buffer, which satisfies the buffer invariant and starts empty with the
requested capacity. -/
theorem creation_failure_no_handle (C triggerLevel : Nat) (m : Mode)
    (storageSize : Nat) :
    create false C m triggerLevel = none ∧
    createStatic none true C m triggerLevel = none ∧
    createStatic (some storageSize) false C m triggerLevel = none ∧
    (storageSize < C → createStatic (some storageSize) true C m triggerLevel = none) ∧
    (C ≤ storageSize →
      createStatic (some storageSize) true C m triggerLevel
        = some (freshBuffer C m triggerLevel)) ∧
    create true C m triggerLevel = some (freshBuffer C m triggerLevel) ∧
    BufInv (freshBuffer C m triggerLevel) ∧
    (freshBuffer C m triggerLevel).capacity = C ∧
    (freshBuffer C m triggerLevel).bytesUsed = 0 := by
  refine ⟨rfl, rfl, rfl, ?_, ?_, rfl, freshBuffer_inv C m triggerLevel, rfl, rfl⟩
  · intro h
    rw [createStatic]
    simp [h]
  · intro h
    rw [createStatic]
    simp [Nat.not_lt.mpr h]

theorem creation_failure_no_handle_witness :
    createStatic (some 3) true 4 Mode.Message 1 = none ∧
    createStatic (some 5) true 4 Mode.Message 1 = some (freshBuffer 4 Mode.Message 1) :=
  ⟨(creation_failure_no_handle 4 1 Mode.Message 3).2.2.2.1 (by decide),
   (creation_failure_no_handle 4 1 Mode.Message 5).2.2.2.2.1 (by decide)⟩

/-- C9: Query-name equivalence: `xMessageBufferSpaceAvailable` and
`xMessageBufferSpacesAvailable` both expand to the same underlying function
`xStreamBufferSpacesAvailable`, so the two queries return equal values on
every message buffer in every state. -/
theorem space_macro_equivalence (b : Buffer) :
    xMessageBufferSpaceAvailable b = xMessageBufferSpacesAvailable b ∧
    xMessageBufferSpaceAvailable b = xStreamBufferSpacesAvailable b ∧
    xMessageBufferSpacesAvailable b = xStreamBufferSpacesAvailable b :=
  ⟨rfl, rfl, rfl⟩

/-- Embedded from the source (`led_rgb.h` line 16): `#define LED_R_PIN 13`. -/
def LED_R_PIN : Nat := 13

/-- Embedded from the source (`led_rgb.h` line 17): `#define LED_G_PIN 11`. -/
def LED_G_PIN : Nat := 11

/-- Embedded from the source (`led_rgb.h` line 18): `#define LED_B_PIN 12`. -/
def LED_B_PIN : Nat := 12

/-- Embedded from the source (`led_rgb.c` line 14):
`const uint8_t led_pins[] = {LED_R_PIN, LED_G_PIN, LED_B_PIN};`. -/
def led_pins : List Nat := [LED_R_PIN, LED_G_PIN, LED_B_PIN]

/-- GPIO output levels, one Boolean per pin number; `gpio_put` drives one
pin. -/
def gpio_put (g : Nat → Bool) (pin : Nat) (v : Bool) : Nat → Bool :=
  fun p => if p = pin then v else g p

/-- State of `led_rgb_task`: the local `current_color_index` and the GPIO
output levels. -/
structure LedState where
  current_color_index : Nat
  gpio : Nat → Bool

/-- Embedded from the source (`led_rgb.c` lines 32-39): the init loop drives
each of the three LED pins low (`gpio_put(led_pins[i], 0)`; pin direction is
not modelled), and `current_color_index` starts at 0. -/
def led_rgb_task_init (g : Nat → Bool) : LedState :=
  { current_color_index := 0
    gpio := led_pins.foldl (fun acc p => gpio_put acc p false) g }

/-- Embedded from the source (`led_rgb.c` line 45):
`gpio_put(led_pins[current_color_index], 1)` - the state held throughout the
500 ms `vTaskDelay`. -/
def led_on_phase (s : LedState) : LedState :=
  { s with gpio := gpio_put s.gpio (led_pins.getD s.current_color_index 0) true }

/-- Embedded from the source (`led_rgb.c` line 51):
`gpio_put(led_pins[current_color_index], 0)`. -/
def led_off_phase (s : LedState) : LedState :=
  { s with gpio := gpio_put s.gpio (led_pins.getD s.current_color_index 0) false }

/-- Embedded from the source (`led_rgb.c` lines 54-58):
`current_color_index++; if (current_color_index >= 3) current_color_index = 0;`. -/
def led_advance (s : LedState) : LedState :=
  { s with current_color_index :=
      if s.current_color_index + 1 ≥ 3 then 0 else s.current_color_index + 1 }

/-- One iteration of the `while (1)` loop body of `led_rgb_task`. -/
def led_rgb_iteration (s : LedState) : LedState :=
  led_advance (led_off_phase (led_on_phase s))

/-- State after `n` full loop iterations, from the initialized state. -/
def led_rgb_run (g : Nat → Bool) (n : Nat) : LedState :=
  led_rgb_iteration^[n] (led_rgb_task_init g)

theorem led_rgb_run_core (g : Nat → Bool) (n : Nat) :
    (led_rgb_run g n).current_color_index = n % 3 ∧
    ∀ p ∈ led_pins, (led_rgb_run g n).gpio p = false := by
  induction n with
  | zero =>
    refine ⟨rfl, ?_⟩
    intro p hp
    simp only [led_pins, LED_R_PIN, LED_G_PIN, LED_B_PIN, List.mem_cons,
      List.not_mem_nil, or_false] at hp
    rcases hp with h | h | h <;>
      simp [led_rgb_run, led_rgb_task_init, led_pins, gpio_put,
        LED_R_PIN, LED_G_PIN, LED_B_PIN, h]
  | succ n ih =>
    obtain ⟨hidx, hlow⟩ := ih
    have hstep : led_rgb_run g (n + 1) = led_rgb_iteration (led_rgb_run g n) := by
      rw [led_rgb_run, Function.iterate_succ_apply']
      rfl
    constructor
    · rw [hstep, led_rgb_iteration, led_advance]
      simp only [led_off_phase, led_on_phase, hidx]
      split <;> omega
    · intro p hp
      rw [hstep]
      show (led_advance (led_off_phase (led_on_phase (led_rgb_run g n)))).gpio p = false
      rw [led_advance]
      simp only [led_off_phase, led_on_phase, gpio_put]
      by_cases hpin : p = led_pins.getD (led_rgb_run g n).current_color_index 0
      · rw [if_pos hpin]
      · rw [if_neg hpin, if_neg hpin]
        exact hlow p hp

/-- C10: LED color-cycle invariant: in `led_rgb_task`, `current_color_index`
always stays in `{0, 1, 2}` (it equals the iteration count mod 3); during
each iteration's delay exactly the pin of the current color is high and every
other LED pin is low; the same pin is driven low again before the index
advances cyclically `0 -> 1 -> 2 -> 0`; and between iterations all three LED
pins are low, so at most one LED pin is ever high. -/
theorem led_rgb_task_invariant (g : Nat → Bool) (n : Nat) :
    (led_rgb_run g n).current_color_index < 3 ∧
    (led_rgb_run g n).current_color_index = n % 3 ∧
    (∀ p ∈ led_pins, (led_rgb_run g n).gpio p = false) ∧
    (led_on_phase (led_rgb_run g n)).gpio
        (led_pins.getD (led_rgb_run g n).current_color_index 0) = true ∧
    (∀ p ∈ led_pins,
      p ≠ led_pins.getD (led_rgb_run g n).current_color_index 0 →
      (led_on_phase (led_rgb_run g n)).gpio p = false) ∧
    (∀ p ∈ led_pins,
      (led_off_phase (led_on_phase (led_rgb_run g n))).gpio p = false) ∧
    (led_rgb_iteration (led_rgb_run g n)).current_color_index = (n + 1) % 3 := by
  obtain ⟨hidx, hlow⟩ := led_rgb_run_core g n
  refine ⟨by omega, hidx, hlow, ?_, ?_, ?_, ?_⟩
  · rw [led_on_phase]
    simp [gpio_put]
  · intro p hp hne
    rw [led_on_phase]
    simp only [gpio_put, if_neg hne]
    exact hlow p hp
  · intro p hp
    rw [led_off_phase, led_on_phase]
    simp only [gpio_put]
    by_cases hpin : p = led_pins.getD (led_rgb_run g n).current_color_index 0
    · rw [if_pos hpin]
    · rw [if_neg hpin, if_neg hpin]
      exact hlow p hp
  · rw [led_rgb_iteration, led_advance]
    simp only [led_off_phase, led_on_phase, hidx]
    split <;> omega

theorem led_rgb_task_invariant_witness :
    (led_rgb_run (fun _ => true) 4).current_color_index = 1 ∧
    (led_rgb_run (fun _ => true) 4).gpio LED_G_PIN = false ∧
    (led_on_phase (led_rgb_run (fun _ => true) 4)).gpio LED_G_PIN = true ∧
    (led_on_phase (led_rgb_run (fun _ => true) 4)).gpio LED_R_PIN = false ∧
    (led_rgb_iteration (led_rgb_run (fun _ => true) 4)).current_color_index = 2 :=
  have h := led_rgb_task_invariant (fun _ => true) 4
  ⟨h.2.1, h.2.2.1 LED_G_PIN (by simp [led_pins]),
   by
     have hg := h.2.2.2.1
     rw [h.2.1] at hg
     exact hg,
   h.2.2.2.2.1 LED_R_PIN (by simp [led_pins]) (by rw [h.2.1]; decide),
   h.2.2.2.2.2.2⟩
